import Mathlib

/-!
Shallow embedding of `src/ProcessSchedulerVisualization.jsx`: the process
registry (`addProcess`, `removeProcess`) and the scheduling engine
(`simulateFCFS`, `runSimulation`) of the process-scheduler component.
UI failures are `alert(...)`-and-return; they are modelled as
`Except.error` carrying the alert message, and the state-level effect of a
handler is recovered by `addStep` / `runStep` (on error the React state is
left untouched).
-/

namespace ProcessScheduler

-- Source: the `PROCESS_STATES` object (string constants).
namespace PROCESS_STATES

def NEW : String := "New"

def READY : String := "Ready"

def RUNNING : String := "Running"

def WAITING : String := "Waiting"

def TERMINATED : String := "Terminated"

end PROCESS_STATES

-- Source: the `SCHEDULING_ALGORITHMS` object (string constants); the
-- `algorithm` state holds one of these strings and `runSimulation`
-- switches on it.
namespace SCHEDULING_ALGORITHMS

def FCFS : String := "First-Come, First-Served (FCFS)"

def RR : String := "Round Robin (RR)"

def SJF : String := "Shortest Job First (SJF)"

def PRIORITY : String := "Priority Scheduling"

end SCHEDULING_ALGORITHMS

/-- A process record as built by `addProcess` and annotated by
`simulateFCFS`.  The four derived metric fields are absent (`none`) until a
simulation attaches them.  JS numbers are modelled as `Int`: every numeric
field is produced by `parseInt` on the value of an HTML `type="number"`
input, which is an integer. -/
structure Process where
  id : String
  arrivalTime : Int
  burstTime : Int
  priority : Int
  state : String
  startTime : Option Int := none
  completionTime : Option Int := none
  turnAroundTime : Option Int := none
  waitingTime : Option Int := none
deriving DecidableEq, Repr

/-- The `newProcess` form state: four text fields, numeric ones backed by
HTML `type="number"` inputs. -/
structure NewProcessForm where
  id : String
  arrivalTime : String
  burstTime : String
  priority : String
deriving DecidableEq, Repr

/-- Value of the longest digit run at the front of `cs` (JS `parseInt`
consumes digits up to the first non-digit character and ignores the rest). -/
def digitRunValue (cs : List Char) : Nat :=
  (cs.takeWhile Char.isDigit).foldl (fun acc c => 10 * acc + (c.toNat - 48)) 0

/-- JS `parseInt` on decimal strings: skip leading whitespace, read an
optional sign and then the longest digit run.  When no digit follows (JS
would produce `NaN`) the result is collapsed to `0`; that case is
unreachable in the component, because every numeric field flows through an
HTML `type="number"` input whose nonempty sanitized values always begin with
an optional sign followed by a digit. -/
def jsParseInt (s : String) : Int :=
  match s.data.dropWhile Char.isWhitespace with
  | '-' :: cs => -(digitRunValue cs : Int)
  | '+' :: cs => (digitRunValue cs : Int)
  | cs => (digitRunValue cs : Int)

/-- The record `addProcess` builds from the form (`processToAdd` in the
source): numeric fields via `parseInt`, `priority` defaulting to `0` when
the field is empty (the only falsy string), `state` set to `New`. -/
def processToAdd (form : NewProcessForm) : Process :=
  { id := form.id
    arrivalTime := jsParseInt form.arrivalTime
    burstTime := jsParseInt form.burstTime
    priority := if form.priority ≠ "" then jsParseInt form.priority else 0
    state := PROCESS_STATES.NEW }

/-- `addProcess`: alert (error) if a required field is empty (the falsy
strings are exactly `""`), then alert if some existing process has the same
`id`, otherwise append `processToAdd` to the list. -/
def addProcess (form : NewProcessForm) (processes : List Process) :
    Except String (List Process) :=
  if form.id = "" ∨ form.arrivalTime = "" ∨ form.burstTime = "" then
    Except.error "Please fill in all required fields"
  else if processes.any (fun p => p.id = (processToAdd form).id) then
    Except.error "A process with this ID already exists"
  else
    Except.ok (processes ++ [processToAdd form])

/-- The effect of one click of the Add Process button on the `processes`
state: on an alert the handler returns early and the state is unchanged. -/
def addStep (form : NewProcessForm) (processes : List Process) : List Process :=
  match addProcess form processes with
  | Except.ok result => result
  | Except.error _ => processes

/-- `removeProcess`: `processes.filter(process => process.id !== id)`. -/
def removeProcess (pid : String) (processes : List Process) : List Process :=
  processes.filter (fun process => process.id ≠ pid)

/-- The FCFS sort order.  The source sorts a copy with the comparator
`(a, b) => a.arrivalTime - b.arrivalTime` (ascending `arrivalTime`);
`Array.prototype.sort` is stable (ES2019), and `List.mergeSort` with this
Boolean order is the same unique stable ascending reordering. -/
def fcfsLe (a b : Process) : Bool := a.arrivalTime ≤ b.arrivalTime

/-- The annotating walk inside `simulateFCFS`'s `map`: `currentTime` threads
left to right; `processStart = Math.max(currentTime, arrivalTime)`;
`currentTime` advances to `processStart + burstTime`, which is also the
completion time, and the four derived fields are written onto a copy of the
record. -/
def fcfsGo : Int → List Process → List Process
  | _, [] => []
  | currentTime, process :: rest =>
    let processStart := max currentTime process.arrivalTime
    let nextTime := processStart + process.burstTime
    { process with
        startTime := some processStart
        completionTime := some nextTime
        turnAroundTime := some (nextTime - process.arrivalTime)
        waitingTime := some (processStart - process.arrivalTime) } :: fcfsGo nextTime rest

/-- `simulateFCFS`: sort a copy of the process list by arrival time, then
walk it with `currentTime = 0` attaching the derived metrics. -/
def simulateFCFS (processes : List Process) : List Process :=
  fcfsGo 0 (processes.mergeSort fcfsLe)

/-- `runSimulation`: switch on the algorithm string; only the FCFS case is
implemented, every other value (the three remaining named algorithms as
well as any unknown selector) hits the `default` branch, which alerts and
returns without producing a result. -/
def runSimulation (algorithm : String) (processes : List Process) :
    Except String (List Process) :=
  if algorithm = SCHEDULING_ALGORITHMS.FCFS then
    Except.ok (simulateFCFS processes)
  else
    Except.error "Selected algorithm not implemented yet"

/-- The effect of one click of the Run Simulation button on the `processes`
state: on success `setProcesses(result)` installs the annotated list, on the
alert the handler returns early and the state is unchanged. -/
def runStep (algorithm : String) (processes : List Process) : List Process :=
  match runSimulation algorithm processes with
  | Except.ok result => result
  | Except.error _ => processes

/-- The Run Simulation button carries `disabled={processes.length === 0}`:
the UI never invokes the engine on an empty registry. -/
def runSimulationButtonDisabled (processes : List Process) : Bool :=
  processes.length == 0

/-- The scheduling-relevant fields of a record: everything except the four
derived metric fields that a simulation attaches. -/
def coreFields (p : Process) : String × Int × Int × Int × String :=
  (p.id, p.arrivalTime, p.burstTime, p.priority, p.state)

/-- Modelled from the spec (FCFS step 2): starting from a current time, the
walk assigns each process in order `startTime = max(currentTime,
arrivalTime)` and `completionTime = startTime + burstTime`, advances the
current time to that completion time, and leaves the identifying fields of
the record unchanged. -/
inductive FCFSWalk : Int → List Process → List Process → Prop where
  | nil (currentTime : Int) : FCFSWalk currentTime [] []
  | cons (currentTime : Int) (p q : Process) (rest out : List Process)
      (hid : q.id = p.id) (harr : q.arrivalTime = p.arrivalTime)
      (hburst : q.burstTime = p.burstTime)
      (hstart : q.startTime = some (max currentTime p.arrivalTime))
      (hcomp : q.completionTime = some (max currentTime p.arrivalTime + p.burstTime))
      (hrest : FCFSWalk (max currentTime p.arrivalTime + p.burstTime) rest out) :
      FCFSWalk currentTime (p :: rest) (q :: out)

/-! Helper lemmas about the FCFS order and the annotating walk. -/

lemma fcfsLe_trans : ∀ a b c : Process, fcfsLe a b → fcfsLe b c → fcfsLe a c := by
  intro a b c hab hbc
  simp only [fcfsLe, decide_eq_true_eq] at *
  omega

lemma fcfsLe_total : ∀ a b : Process, fcfsLe a b || fcfsLe b a := by
  intro a b
  simp only [fcfsLe, Bool.or_eq_true, decide_eq_true_eq]
  omega

lemma fcfsGo_map_coreFields (currentTime : Int) (l : List Process) :
    (fcfsGo currentTime l).map coreFields = l.map coreFields := by
  induction l generalizing currentTime with
  | nil => rfl
  | cons p rest ih => simp [fcfsGo, coreFields, ih]

lemma fcfsGo_map_arrivalTime (currentTime : Int) (l : List Process) :
    (fcfsGo currentTime l).map (fun p => p.arrivalTime) =
      l.map (fun p => p.arrivalTime) := by
  induction l generalizing currentTime with
  | nil => rfl
  | cons p rest ih => simp [fcfsGo, ih]

lemma mem_fcfsGo {q : Process} :
    ∀ (currentTime : Int) (l : List Process), q ∈ fcfsGo currentTime l →
      ∃ p ∈ l, ∃ s : Int,
        q.id = p.id ∧ q.arrivalTime = p.arrivalTime ∧ q.burstTime = p.burstTime ∧
        q.priority = p.priority ∧ q.state = p.state ∧
        q.startTime = some s ∧ p.arrivalTime ≤ s ∧
        q.completionTime = some (s + p.burstTime) ∧
        q.turnAroundTime = some (s + p.burstTime - p.arrivalTime) ∧
        q.waitingTime = some (s - p.arrivalTime)
  | currentTime, p :: rest, hq => by
    rw [fcfsGo] at hq
    rcases List.mem_cons.mp hq with hq | hq
    · refine ⟨p, List.mem_cons_self _ _, max currentTime p.arrivalTime, ?_⟩
      subst hq
      refine ⟨rfl, rfl, rfl, rfl, rfl, rfl, le_max_right _ _, rfl, rfl, rfl⟩
    · obtain ⟨p', hp', hrest⟩ := mem_fcfsGo _ rest hq
      exact ⟨p', List.mem_cons_of_mem _ hp', hrest⟩

lemma fcfsGo_pairwise {l : List Process} (currentTime : Int)
    (h : List.Pairwise (fun a b => fcfsLe a b = true) l) :
    List.Pairwise (fun a b => fcfsLe a b = true) (fcfsGo currentTime l) := by
  have key : ∀ l' l'' : List Process,
      l'.map (fun p => p.arrivalTime) = l''.map (fun p => p.arrivalTime) →
      List.Pairwise (fun a b => fcfsLe a b = true) l'' →
      List.Pairwise (fun a b => fcfsLe a b = true) l' := by
    intro l' l'' hmap hpw
    have h' : List.Pairwise (fun x y : Int => x ≤ y)
        (l''.map (fun p => p.arrivalTime)) := by
      rw [List.pairwise_map]
      exact hpw.imp (fun hab => by
        simpa only [fcfsLe, decide_eq_true_eq] using hab)
    rw [← hmap, List.pairwise_map] at h'
    exact h'.imp (fun hab => by
      simpa only [fcfsLe, decide_eq_true_eq] using hab)
  exact key _ _ (fcfsGo_map_arrivalTime currentTime l) h

lemma fcfsGo_idem : ∀ (currentTime : Int) (l : List Process),
    fcfsGo currentTime (fcfsGo currentTime l) = fcfsGo currentTime l
  | currentTime, [] => rfl
  | currentTime, p :: rest => by
    simp only [fcfsGo]
    rw [fcfsGo_idem _ rest]

lemma FCFSWalk_fcfsGo : ∀ (currentTime : Int) (l : List Process),
    FCFSWalk currentTime l (fcfsGo currentTime l)
  | currentTime, [] => FCFSWalk.nil currentTime
  | currentTime, p :: rest => by
    rw [fcfsGo]
    exact FCFSWalk.cons currentTime p _ rest _ rfl rfl rfl rfl rfl
      (FCFSWalk_fcfsGo _ rest)

lemma mergeSort_filter_arrival (l : List Process) (t : Int) :
    (l.mergeSort fcfsLe).filter (fun p => p.arrivalTime = t) =
      l.filter (fun p => p.arrivalTime = t) := by
  set c : Process → Bool := fun p => p.arrivalTime = t with hc
  have harr : ∀ p : Process, c p = true → p.arrivalTime = t := by
    intro p hp
    simpa [hc] using hp
  have hpw : List.Pairwise (fun a b => fcfsLe a b = true) (l.filter c) := by
    apply List.pairwise_of_forall_mem_list
    intro a ha b hb
    have ha' := harr a (List.mem_filter.mp ha).2
    have hb' := harr b (List.mem_filter.mp hb).2
    simp [fcfsLe, ha', hb']
  have hsub : (l.filter c).Sublist (l.mergeSort fcfsLe) :=
    List.sublist_mergeSort fcfsLe_trans fcfsLe_total hpw (List.filter_sublist l)
  have hsub' : (l.filter c).Sublist ((l.mergeSort fcfsLe).filter c) := by
    have h' := List.Sublist.filter c hsub
    rw [List.filter_filter] at h'
    simpa only [Bool.and_self] using h'
  have hperm : ((l.mergeSort fcfsLe).filter c).Perm (l.filter c) :=
    (List.mergeSort_perm l fcfsLe).filter c
  exact (hsub'.eq_of_length hperm.length_eq.symm).symm

lemma fcfsGo_filter_arrival_map (t : Int) :
    ∀ (currentTime : Int) (l : List Process),
      ((fcfsGo currentTime l).filter (fun p => p.arrivalTime = t)).map coreFields =
        (l.filter (fun p => p.arrivalTime = t)).map coreFields
  | currentTime, [] => rfl
  | currentTime, p :: rest => by
    rw [fcfsGo]
    by_cases hp : p.arrivalTime = t <;>
      simp [List.filter_cons, hp, coreFields, fcfsGo_filter_arrival_map t _ rest]

lemma runStep_fcfs (ps : List Process) :
    runStep SCHEDULING_ALGORITHMS.FCFS ps = simulateFCFS ps := rfl

lemma simulateFCFS_pairwise (ps : List Process) :
    List.Pairwise (fun a b => fcfsLe a b = true) (simulateFCFS ps) :=
  fcfsGo_pairwise 0 (List.sorted_mergeSort fcfsLe_trans fcfsLe_total ps)

lemma simulateFCFS_idem (ps : List Process) :
    simulateFCFS (simulateFCFS ps) = simulateFCFS ps := by
  unfold simulateFCFS
  rw [List.mergeSort_of_sorted (fcfsGo_pairwise 0
    (List.sorted_mergeSort fcfsLe_trans fcfsLe_total ps))]
  exact fcfsGo_idem 0 _

/-! Helper lemmas about the registry. -/

lemma addStep_nodup (form : NewProcessForm) (ps : List Process)
    (h : (ps.map (fun p => p.id)).Nodup) :
    ((addStep form ps).map (fun p => p.id)).Nodup := by
  unfold addStep
  cases hadd : addProcess form ps with
  | error e => exact h
  | ok result =>
    unfold addProcess at hadd
    by_cases hv : form.id = "" ∨ form.arrivalTime = "" ∨ form.burstTime = ""
    · rw [if_pos hv] at hadd
      cases hadd
    · rw [if_neg hv] at hadd
      by_cases hd : ps.any (fun p => p.id = (processToAdd form).id) = true
      · rw [if_pos hd] at hadd
        cases hadd
      · rw [if_neg hd] at hadd
        injection hadd with hres
        subst hres
        simp only [List.map_append, List.map_cons, List.map_nil, List.nodup_append]
        refine ⟨h, List.nodup_singleton _, ?_⟩
        intro a ha hb
        simp only [List.mem_singleton] at hb
        subst hb
        obtain ⟨p, hp, hpid⟩ := List.mem_map.mp ha
        exact hd (List.any_eq_true.mpr ⟨p, hp, by simp [hpid]⟩)

lemma foldl_addStep_nodup (forms : List NewProcessForm) :
    ∀ ps : List Process, (ps.map (fun p => p.id)).Nodup →
      ((forms.foldl (fun acc form => addStep form acc) ps).map
        (fun p => p.id)).Nodup := by
  induction forms with
  | nil => exact fun ps h => h
  | cons form rest ih => exact fun ps h => ih _ (addStep_nodup form ps h)

/-- Example record used in the concrete witnesses: a freshly added process
with the given id, arrival and burst time. -/
def sampleNew (pid : String) (arrival burst : Int) : Process :=
  { id := pid, arrivalTime := arrival, burstTime := burst, priority := 0,
    state := PROCESS_STATES.NEW }

lemma runSimulation_ok_eq {algorithm : String} {ps out : List Process}
    (hrun : runSimulation algorithm ps = Except.ok out) :
    out = simulateFCFS ps := by
  unfold runSimulation at hrun
  by_cases halg : algorithm = SCHEDULING_ALGORITHMS.FCFS
  · rw [if_pos halg] at hrun
    injection hrun with h
    exact h.symm
  · rw [if_neg halg] at hrun
    cases hrun

/-! Claim theorems. -/

/-- C1: for every non-empty list of processes, `simulateFCFS` first reorders
the list into a sequence sorted by `arrivalTime` ascending whose
arrival-time classes keep the original insertion order (the stable-sort
tie-break), and then walks that sequence starting from `currentTime = 0`,
assigning each process `startTime = max(currentTime, arrivalTime)` and
`completionTime = startTime + burstTime` and advancing `currentTime` to
that completion time (the `FCFSWalk` relation transcribed from the spec). -/
theorem simulateFCFS_sorts_then_walks (ps : List Process) (_hne : ps ≠ []) :
    ∃ sorted : List Process,
      sorted.Perm ps ∧
      List.Pairwise (fun a b => a.arrivalTime ≤ b.arrivalTime) sorted ∧
      (∀ t : Int, sorted.filter (fun p => p.arrivalTime = t) =
          ps.filter (fun p => p.arrivalTime = t)) ∧
      FCFSWalk 0 sorted (simulateFCFS ps) := by
  refine ⟨ps.mergeSort fcfsLe, List.mergeSort_perm ps fcfsLe, ?_, ?_,
    FCFSWalk_fcfsGo 0 _⟩
  · exact (List.sorted_mergeSort fcfsLe_trans fcfsLe_total ps).imp
      (fun h => by simpa [fcfsLe] using h)
  · exact fun t => mergeSort_filter_arrival ps t

/-- C1 witness: the theorem applied to the concrete two-process list
`[P3(2,8), P1(0,5)]`. -/
theorem simulateFCFS_sorts_then_walks_witness :
    ([sampleNew "P3" 2 8, sampleNew "P1" 0 5] ≠ []) ∧
    ∃ sorted : List Process,
      sorted.Perm [sampleNew "P3" 2 8, sampleNew "P1" 0 5] ∧
      List.Pairwise (fun a b => a.arrivalTime ≤ b.arrivalTime) sorted ∧
      (∀ t : Int, sorted.filter (fun p => p.arrivalTime = t) =
          [sampleNew "P3" 2 8, sampleNew "P1" 0 5].filter
            (fun p => p.arrivalTime = t)) ∧
      FCFSWalk 0 sorted (simulateFCFS [sampleNew "P3" 2 8, sampleNew "P1" 0 5]) :=
  ⟨by simp, simulateFCFS_sorts_then_walks _ (by simp)⟩

/-- C2: every process in the list returned by a successful simulation run
carries `turnAroundTime = completionTime - arrivalTime` and
`waitingTime = turnAroundTime - burstTime`, equivalently (the run being
non-preemptive FCFS) `waitingTime = startTime - arrivalTime`. -/
theorem run_metric_formulas (algorithm : String) (ps out : List Process)
    (hrun : runSimulation algorithm ps = Except.ok out) :
    ∀ q ∈ out, ∃ s c : Int,
      q.startTime = some s ∧ q.completionTime = some c ∧
      q.turnAroundTime = some (c - q.arrivalTime) ∧
      q.waitingTime = some (c - q.arrivalTime - q.burstTime) ∧
      q.waitingTime = some (s - q.arrivalTime) := by
  have hout : out = simulateFCFS ps := runSimulation_ok_eq hrun
  subst hout
  intro q hq
  obtain ⟨p, hp, s, hid, harr, hburst, hprio, hstate, hstart, hle, hcomp, hta, hw⟩ :=
    mem_fcfsGo 0 _ hq
  refine ⟨s, s + p.burstTime, hstart, hcomp, ?_, ?_, ?_⟩
  · rw [harr]
    exact hta
  · rw [harr, hburst, hw]
    congr 1
    ring
  · rw [harr]
    exact hw

/-- The one annotated record produced by an FCFS run on `[P1(0,5)]`, used
to instantiate witnesses at a concrete output process. -/
def sampleDone : Process :=
  { id := "P1", arrivalTime := 0, burstTime := 5, priority := 0,
    state := PROCESS_STATES.NEW, startTime := some 0,
    completionTime := some 5, turnAroundTime := some 5,
    waitingTime := some 0 }

/-- C2 witness: the theorem applied to the FCFS run on `[P1(0,5)]`, at the
concrete output record of that run. -/
theorem run_metric_formulas_witness :
    ∃ s c : Int,
      sampleDone.startTime = some s ∧ sampleDone.completionTime = some c ∧
      sampleDone.turnAroundTime = some (c - sampleDone.arrivalTime) ∧
      sampleDone.waitingTime =
        some (c - sampleDone.arrivalTime - sampleDone.burstTime) ∧
      sampleDone.waitingTime = some (s - sampleDone.arrivalTime) :=
  run_metric_formulas SCHEDULING_ALGORITHMS.FCFS [sampleNew "P1" 0 5] _ rfl
    sampleDone (by simp [simulateFCFS, fcfsGo, sampleNew, sampleDone])

/-- C3: on inputs where every process has non-negative arrival and positive
burst, every process of a successful simulation run has non-negative
waiting time, turnaround time at least its burst time, and completion time
at least its arrival time. -/
theorem run_metrics_nonnegative (algorithm : String) (ps out : List Process)
    (hvalid : ∀ p ∈ ps, 0 ≤ p.arrivalTime ∧ 0 < p.burstTime)
    (hrun : runSimulation algorithm ps = Except.ok out) :
    ∀ q ∈ out, ∃ w ta c : Int,
      q.waitingTime = some w ∧ 0 ≤ w ∧
      q.turnAroundTime = some ta ∧ q.burstTime ≤ ta ∧
      q.completionTime = some c ∧ q.arrivalTime ≤ c := by
  have hout : out = simulateFCFS ps := runSimulation_ok_eq hrun
  subst hout
  intro q hq
  obtain ⟨p, hp, s, hid, harr, hburst, hprio, hstate, hstart, hle, hcomp, hta, hw⟩ :=
    mem_fcfsGo 0 _ hq
  have hpmem : p ∈ ps := List.mem_mergeSort.mp hp
  obtain ⟨hparr, hpburst⟩ := hvalid p hpmem
  refine ⟨s - p.arrivalTime, s + p.burstTime - p.arrivalTime, s + p.burstTime,
    hw, by omega, hta, ?_, hcomp, ?_⟩
  · rw [hburst]
    omega
  · rw [harr]
    omega

/-- C3 witness: the theorem applied to the FCFS run on `[P1(0,5)]` (a valid
input: non-negative arrival, positive burst), at the concrete output record
of that run. -/
theorem run_metrics_nonnegative_witness :
    ∃ w ta c : Int,
      sampleDone.waitingTime = some w ∧ 0 ≤ w ∧
      sampleDone.turnAroundTime = some ta ∧ sampleDone.burstTime ≤ ta ∧
      sampleDone.completionTime = some c ∧ sampleDone.arrivalTime ≤ c :=
  run_metrics_nonnegative SCHEDULING_ALGORITHMS.FCFS [sampleNew "P1" 0 5] _
    (by intro p hp
        simp only [List.mem_singleton] at hp
        subst hp
        simp [sampleNew]) rfl
    sampleDone (by simp [simulateFCFS, fcfsGo, sampleNew, sampleDone])

/-- C4: across every sequence of add operations the registry ids stay
pairwise distinct; an add whose id matches an existing process fails with
the duplicate-id alert and leaves the registry contents exactly unchanged,
while an add with a fresh id and all required fields present appends the
built record. -/
theorem addProcess_unique_ids :
    (∀ forms : List NewProcessForm,
      ((forms.foldl (fun acc form => addStep form acc) []).map
        (fun p => p.id)).Nodup)
    ∧ (∀ (ps : List Process) (form : NewProcessForm),
        form.id ≠ "" → form.arrivalTime ≠ "" → form.burstTime ≠ "" →
        (∃ p ∈ ps, p.id = form.id) →
        addProcess form ps =
          Except.error "A process with this ID already exists" ∧
        addStep form ps = ps)
    ∧ (∀ (ps : List Process) (form : NewProcessForm),
        form.id ≠ "" → form.arrivalTime ≠ "" → form.burstTime ≠ "" →
        (∀ p ∈ ps, p.id ≠ form.id) →
        addProcess form ps = Except.ok (ps ++ [processToAdd form])) := by
  refine ⟨fun forms => foldl_addStep_nodup forms [] (by simp), ?_, ?_⟩
  · intro ps form h1 h2 h3 hdup
    obtain ⟨p, hp, hpid⟩ := hdup
    have herr : addProcess form ps =
        Except.error "A process with this ID already exists" := by
      unfold addProcess
      rw [if_neg (by simp [h1, h2, h3]),
        if_pos (List.any_eq_true.mpr ⟨p, hp, by simp [processToAdd, hpid]⟩)]
    refine ⟨herr, ?_⟩
    unfold addStep
    rw [herr]
  · intro ps form h1 h2 h3 hfresh
    unfold addProcess
    rw [if_neg (by simp [h1, h2, h3]),
      if_neg (by simp only [List.any_eq_true, not_exists]
                 intro p
                 simp [processToAdd]
                 intro hp
                 exact hfresh p hp)]

/-- C4 witness: the theorem applied to the concrete registry holding one
process with id P1 — a second add of id P1 fails and changes nothing, an
add of id P2 appends, and the two-add fold keeps ids distinct. -/
theorem addProcess_unique_ids_witness :
    ((([⟨"P1", "0", "3", ""⟩, ⟨"P1", "1", "2", ""⟩] :
        List NewProcessForm).foldl (fun acc form => addStep form acc) []).map
        (fun p => p.id)).Nodup
    ∧ (addProcess ⟨"P1", "1", "2", ""⟩ [processToAdd ⟨"P1", "0", "3", ""⟩] =
        Except.error "A process with this ID already exists" ∧
       addStep ⟨"P1", "1", "2", ""⟩ [processToAdd ⟨"P1", "0", "3", ""⟩] =
        [processToAdd ⟨"P1", "0", "3", ""⟩])
    ∧ addProcess ⟨"P2", "1", "2", ""⟩ [processToAdd ⟨"P1", "0", "3", ""⟩] =
        Except.ok ([processToAdd ⟨"P1", "0", "3", ""⟩] ++
          [processToAdd ⟨"P2", "1", "2", ""⟩]) :=
  ⟨addProcess_unique_ids.1 _,
   addProcess_unique_ids.2.1 _ _ (by decide) (by decide) (by decide)
     ⟨processToAdd ⟨"P1", "0", "3", ""⟩, by simp, by simp [processToAdd]⟩,
   addProcess_unique_ids.2.2 _ _ (by decide) (by decide) (by decide)
     (by intro p hp
         simp only [List.mem_singleton] at hp
         subst hp
         simp [processToAdd])⟩

/-- C5 (code bug): only the FCFS branch of runSimulation is implemented.
On the Round-Robin scenario input P1(arrival 0, burst 5), P2(arrival 1,
burst 3), the RR selector — like SJF and PRIORITY — hits the default
branch, which alerts and produces no result (so no completion times 7 and
8 are ever computed), while the FCFS selector does produce a result. -/
theorem runSimulation_only_fcfs :
    runSimulation SCHEDULING_ALGORITHMS.RR
        [sampleNew "P1" 0 5, sampleNew "P2" 1 3] =
      Except.error "Selected algorithm not implemented yet" ∧
    runSimulation SCHEDULING_ALGORITHMS.SJF
        [sampleNew "P1" 0 5, sampleNew "P2" 1 3] =
      Except.error "Selected algorithm not implemented yet" ∧
    runSimulation SCHEDULING_ALGORITHMS.PRIORITY
        [sampleNew "P1" 0 5, sampleNew "P2" 1 3] =
      Except.error "Selected algorithm not implemented yet" ∧
    runSimulation SCHEDULING_ALGORITHMS.FCFS
        [sampleNew "P1" 0 5, sampleNew "P2" 1 3] =
      Except.ok (simulateFCFS [sampleNew "P1" 0 5, sampleNew "P2" 1 3]) := by
  refine ⟨?_, ?_, ?_, rfl⟩ <;>
    simp [runSimulation, SCHEDULING_ALGORITHMS.RR, SCHEDULING_ALGORITHMS.SJF,
      SCHEDULING_ALGORITHMS.PRIORITY, SCHEDULING_ALGORITHMS.FCFS]

/-- C6: for every selector value outside the four named algorithm strings,
runSimulation fails — the alert-and-return default branch, modelled as an
error result, so no silent no-op — returns no results, and the registry
contents are left unchanged. -/
theorem runSimulation_unknown_selector (algorithm : String) (ps : List Process)
    (h : algorithm ∉ [SCHEDULING_ALGORITHMS.FCFS, SCHEDULING_ALGORITHMS.RR,
      SCHEDULING_ALGORITHMS.SJF, SCHEDULING_ALGORITHMS.PRIORITY]) :
    runSimulation algorithm ps =
      Except.error "Selected algorithm not implemented yet" ∧
    runStep algorithm ps = ps := by
  have hf : algorithm ≠ SCHEDULING_ALGORITHMS.FCFS := by
    intro he
    exact h (by simp [he])
  constructor
  · unfold runSimulation
    rw [if_neg hf]
  · unfold runStep runSimulation
    rw [if_neg hf]

/-- C6 witness: the theorem applied to the unknown selector string
"Lottery Scheduling" on a one-process registry. -/
theorem runSimulation_unknown_selector_witness :
    runSimulation "Lottery Scheduling" [sampleNew "P1" 0 5] =
      Except.error "Selected algorithm not implemented yet" ∧
    runStep "Lottery Scheduling" [sampleNew "P1" 0 5] = [sampleNew "P1" 0 5] :=
  runSimulation_unknown_selector _ _ (by decide)

/-- C7 counterexample: on the empty snapshot, runSimulation with the FCFS
selector does not fail at all — it succeeds with the empty result list, so
no EmptyInputError-style failure is raised. -/
theorem runSimulation_empty_no_error :
    runSimulation SCHEDULING_ALGORITHMS.FCFS [] = Except.ok [] := by
  simp [runSimulation, simulateFCFS, fcfsGo]

/-- C7 amended: runSimulation performs no empty-input check — with the FCFS
selector it succeeds on the empty snapshot, returning the empty list and
leaving the registry contents unchanged; the guard lives in the UI instead,
which disables the Run Simulation button whenever the registry is empty, so
the engine is never invoked on zero processes from the interface. -/
theorem runSimulation_empty_amended :
    runSimulation SCHEDULING_ALGORITHMS.FCFS [] = Except.ok [] ∧
    runStep SCHEDULING_ALGORITHMS.FCFS [] = [] ∧
    runSimulationButtonDisabled [] = true := by
  refine ⟨?_, ?_, rfl⟩ <;>
    simp [runSimulation, runStep, runStep_fcfs, simulateFCFS, fcfsGo]

/-- C8 counterexample: addProcess accepts a record with negative arrival
time and zero burst time — the form ("P1", "-1", "0") passes the
presence-only validation, the parsed record lands in the registry, and the
Run Simulation button is then enabled, so the record can reach
simulation. -/
theorem addProcess_accepts_invalid :
    addProcess ⟨"P1", "-1", "0", ""⟩ [] =
      Except.ok [processToAdd ⟨"P1", "-1", "0", ""⟩] ∧
    (processToAdd ⟨"P1", "-1", "0", ""⟩).arrivalTime = -1 ∧
    (processToAdd ⟨"P1", "-1", "0", ""⟩).burstTime = 0 ∧
    runSimulationButtonDisabled [processToAdd ⟨"P1", "-1", "0", ""⟩] = false := by
  refine ⟨rfl, ?_, ?_, rfl⟩ <;> decide

/-- C8 amended: a successful add guarantees only that the required form
fields are present (nonempty strings) and that the parsed record is
appended; addProcess enforces no non-negativity on arrivalTime and no
positivity on burstTime, so records violating those bounds can reach
simulation. -/
theorem addProcess_presence_only (form : NewProcessForm)
    (ps result : List Process)
    (h : addProcess form ps = Except.ok result) :
    form.id ≠ "" ∧ form.arrivalTime ≠ "" ∧ form.burstTime ≠ "" ∧
    result = ps ++ [processToAdd form] := by
  unfold addProcess at h
  by_cases hv : form.id = "" ∨ form.arrivalTime = "" ∨ form.burstTime = ""
  · rw [if_pos hv] at h
    cases h
  · rw [if_neg hv] at h
    by_cases hd : ps.any (fun p => p.id = (processToAdd form).id) = true
    · rw [if_pos hd] at h
      cases h
    · rw [if_neg hd] at h
      injection h with h
      push_neg at hv
      exact ⟨hv.1, hv.2.1, hv.2.2, h.symm⟩

/-- C8 witness: the amended theorem applied to the successful add of the
form ("P1", "-1", "0"). -/
theorem addProcess_presence_only_witness :
    (⟨"P1", "-1", "0", ""⟩ : NewProcessForm).id ≠ "" ∧
    (⟨"P1", "-1", "0", ""⟩ : NewProcessForm).arrivalTime ≠ "" ∧
    (⟨"P1", "-1", "0", ""⟩ : NewProcessForm).burstTime ≠ "" ∧
    [processToAdd ⟨"P1", "-1", "0", ""⟩] =
      [] ++ [processToAdd ⟨"P1", "-1", "0", ""⟩] :=
  addProcess_presence_only ⟨"P1", "-1", "0", ""⟩ [] _ rfl

/-- C9: a successful simulation run never changes the arrivalTime,
burstTime, or priority of the input records (nor their id or state): the
multiset of scheduling-relevant fields is preserved, and every output
record agrees with some input record on every non-derived field — the run
only attaches or overwrites the derived metric fields. -/
theorem run_preserves_inputs (algorithm : String) (ps out : List Process)
    (hrun : runSimulation algorithm ps = Except.ok out) :
    (out.map coreFields).Perm (ps.map coreFields) ∧
    ∀ q ∈ out, ∃ p ∈ ps,
      q.id = p.id ∧ q.arrivalTime = p.arrivalTime ∧
      q.burstTime = p.burstTime ∧ q.priority = p.priority ∧
      q.state = p.state := by
  have hout : out = simulateFCFS ps := runSimulation_ok_eq hrun
  subst hout
  constructor
  · have h1 : (simulateFCFS ps).map coreFields =
        (ps.mergeSort fcfsLe).map coreFields := fcfsGo_map_coreFields 0 _
    rw [h1]
    exact (List.mergeSort_perm ps fcfsLe).map _
  · intro q hq
    obtain ⟨p, hp, s, hid, harr, hburst, hprio, hstate, _⟩ := mem_fcfsGo 0 _ hq
    exact ⟨p, List.mem_mergeSort.mp hp, hid, harr, hburst, hprio, hstate⟩

/-- C9 witness: the theorem applied to an FCFS run on
`[P3(2,8), P1(0,5)]`. -/
theorem run_preserves_inputs_witness :
    ((simulateFCFS [sampleNew "P3" 2 8, sampleNew "P1" 0 5]).map
        coreFields).Perm
      ([sampleNew "P3" 2 8, sampleNew "P1" 0 5].map coreFields) ∧
    ∀ q ∈ simulateFCFS [sampleNew "P3" 2 8, sampleNew "P1" 0 5],
      ∃ p ∈ [sampleNew "P3" 2 8, sampleNew "P1" 0 5],
        q.id = p.id ∧ q.arrivalTime = p.arrivalTime ∧
        q.burstTime = p.burstTime ∧ q.priority = p.priority ∧
        q.state = p.state :=
  run_preserves_inputs SCHEDULING_ALGORITHMS.FCFS
    [sampleNew "P3" 2 8, sampleNew "P1" 0 5] _ rfl

/-- C10: one click of Run Simulation with the FCFS selector leaves the
registry holding the annotated processes in ascending arrivalTime order,
stably with respect to the pre-run order within each arrival-time class
(so the original insertion order is in general not preserved), and a
second FCFS run on that registry reproduces it exactly — the run is
idempotent on the registry, so in particular the startTime/completionTime
sequence repeats. -/
theorem runStep_fcfs_sorted_idem (ps : List Process) :
    List.Pairwise (fun a b => a.arrivalTime ≤ b.arrivalTime)
      (runStep SCHEDULING_ALGORITHMS.FCFS ps) ∧
    (∀ t : Int,
      ((runStep SCHEDULING_ALGORITHMS.FCFS ps).filter
          (fun p => p.arrivalTime = t)).map coreFields =
        (ps.filter (fun p => p.arrivalTime = t)).map coreFields) ∧
    runStep SCHEDULING_ALGORITHMS.FCFS (runStep SCHEDULING_ALGORITHMS.FCFS ps) =
      runStep SCHEDULING_ALGORITHMS.FCFS ps := by
  simp only [runStep_fcfs]
  refine ⟨?_, ?_, simulateFCFS_idem ps⟩
  · exact (simulateFCFS_pairwise ps).imp (fun h => by simpa [fcfsLe] using h)
  · intro t
    calc ((simulateFCFS ps).filter (fun p => p.arrivalTime = t)).map coreFields
        = ((ps.mergeSort fcfsLe).filter
            (fun p => p.arrivalTime = t)).map coreFields :=
          fcfsGo_filter_arrival_map t 0 _
      _ = (ps.filter (fun p => p.arrivalTime = t)).map coreFields := by
          rw [mergeSort_filter_arrival]

end ProcessScheduler
